import Mathlib

/-!
# A shallow embedding of the netmon telemetry pipeline

This file embeds, in Lean 4, the parts of the `netmon` repository that the
verified claims are about: the bounded metric store and its aggregate
statistics (`monitor.py`), the CSV persistence layer with its per-target
high-water marks (`csv_logger.py`), the data-management cleanup
(`manage_data.py`, `main.py`) and the network-name sanitizer
(`wifi_detector.py`).

Modelling conventions:
* Python floats are idealised as exact rationals (`ℚ`); `x ** 0.5` is
  `Real.sqrt`.
* `round(x, 2)` is modelled by `pyRound2`, round-half-to-even at two decimal
  places (the rounding Python documents for `round`).
* Timestamps are modelled at epoch-second granularity (`Nat`), the value
  `int(datetime.fromisoformat(ts).timestamp())` computes in `iso_to_epoch`.
* Calendar days are epoch days (`timestamp / 86400`).
* Strings are modelled as `String` or `List Char`; Python's `str.lower` as an
  ASCII lowering map, and the single-character regex classes of
  `sanitize_network_name` as per-character maps.
-/

namespace NetMon

/-! ## Configuration (`config.py`) -/

/-- `RETENTION_SECONDS = int(timedelta(days=1).total_seconds())`. -/
def RETENTION_SECONDS : Nat := 86400

/-- `PING_INTERVAL = 1` (seconds). -/
def PING_INTERVAL : Nat := 1

/-- `CSV_LOG_INTERVAL_SECONDS = 300`. -/
def CSV_LOG_INTERVAL_SECONDS : Nat := 300

/-- `TARGETS = ["1.1.1.1", "8.8.8.8", "9.9.9.9"]`. -/
def TARGETS : List String := ["1.1.1.1", "8.8.8.8", "9.9.9.9"]

/-! ## Samples and the metric store (`monitor.py`) -/

/-- One stored probe result: the dict `{"timestamp": ..., "latency": ...}`
appended by `MetricStore.add`.  `latency = none` is an unreachable probe. -/
structure Sample where
  timestamp : Nat
  latency : Option ℚ
  deriving DecidableEq, Repr

/-- `collections.deque(maxlen) .append x`: appends on the right and, when the
deque already holds `maxlen` elements, silently discards the leftmost
(oldest) element. -/
def dequeAppend (maxlen : Nat) (q : List α) (x : α) : List α :=
  if q.length < maxlen then q ++ [x]
  else if maxlen = 0 then []
  else q.drop 1 ++ [x]

/-- `MetricStore.__init__` / `add` state: `self.retention` and `self.data`,
one bounded sequence per target (only the keys in `TARGETS` exist in the
Python dict; `add` on any other key raises, which no claim exercises, so the
model leaves other keys untouched). -/
structure MetricStore where
  retention : Nat
  data : String → List Sample

/-- `MetricStore(retention_seconds)`: every target starts with an empty
deque of `maxlen = retention_seconds`. -/
def MetricStore.init (retention_seconds : Nat) : MetricStore :=
  { retention := retention_seconds, data := fun _ => [] }

/-- `MetricStore.add(target, latency_ms, timestamp)`:
`self.data[target].append({"timestamp": timestamp, "latency": latency_ms})`. -/
def MetricStore.add (st : MetricStore) (target : String) (latency_ms : Option ℚ)
    (timestamp : Nat) : MetricStore :=
  if target ∈ TARGETS then
    { st with
      data := Function.update st.data target
        (dequeAppend st.retention (st.data target) ⟨timestamp, latency_ms⟩) }
  else st

/-- A whole history of `add` calls for one target, oldest first. -/
def MetricStore.addMany (st : MetricStore) (target : String)
    (xs : List (Option ℚ × Nat)) : MetricStore :=
  xs.foldl (fun s p => s.add target p.1 p.2) st

/-! ## Two-decimal boundary rounding

`monitor.py` reports every aggregate through Python's `round(x, 2)`:
round-half-to-even at two decimal places. -/

/-- `round(x, 2)`: the nearest multiple of `1/100`, ties to the even
multiple. -/
def pyRound2 {α : Type} [LinearOrderedField α] [FloorRing α] (x : α) : α :=
  ((if x * 100 - (⌊x * 100⌋ : α) < 1 / 2 then ⌊x * 100⌋
    else if 1 / 2 < x * 100 - (⌊x * 100⌋ : α) then ⌊x * 100⌋ + 1
    else if 2 ∣ ⌊x * 100⌋ then ⌊x * 100⌋ else ⌊x * 100⌋ + 1 : ℤ) : α) / 100

/-! ## Aggregate statistics (`MetricStore.get_metrics`) -/

/-- `[r["latency"] for r in records if r["latency"] is not None]`. -/
def valid_latencies (records : List Sample) : List ℚ :=
  records.filterMap Sample.latency

/-- Python's `min` over a non-empty list (the `[]` case is never reached by
`get_metrics`, which guards on emptiness first). -/
def pyMin : List ℚ → ℚ
  | [] => 0
  | v :: vs => vs.foldl min v

/-- Python's `max` over a non-empty list (same guard as `pyMin`). -/
def pyMax : List ℚ → ℚ
  | [] => 0
  | v :: vs => vs.foldl max v

/-- `sum(abs(v[i] - v[i-1]) for i in range(1, len(v)))`, the index-based
jitter numerator of `get_metrics`. -/
def jitterSum (l : List ℚ) : ℚ :=
  ∑ i ∈ Finset.Ico 1 l.length, |l.getD i 0 - l.getD (i - 1) 0|

/-- The dict `get_metrics` returns.  The source stores
`round(variance ** 0.5, 2)` under the key `std_deviation`; the model keeps
the full-precision `variance` in the structure and applies the square root
and boundary rounding in `Metrics.std_deviation` below, so that the rest of
the record stays inside `ℚ`. -/
structure Metrics where
  packet_loss_percent : ℚ
  average_latency : Option ℚ
  min_latency : Option ℚ
  max_latency : Option ℚ
  jitter : Option ℚ
  variance : Option ℚ
  records : List Sample
  deriving DecidableEq, Repr

/-- `MetricStore.get_metrics(target)` on the current contents of one
target's sequence (`records = list(self.data[target])`). -/
def get_metrics (records : List Sample) : Metrics :=
  if records = [] then
    { packet_loss_percent := 100, average_latency := none, min_latency := none,
      max_latency := none, jitter := none, variance := none, records := [] }
  else
    let valid := valid_latencies records
    let packet_loss : ℚ :=
      100 * ((records.length : ℚ) - (valid.length : ℚ)) / (records.length : ℚ)
    if valid = [] then
      { packet_loss_percent := pyRound2 packet_loss, average_latency := none,
        min_latency := none, max_latency := none, jitter := none,
        variance := none, records := records }
    else
      let avg_latency := valid.sum / (valid.length : ℚ)
      let jitter : ℚ :=
        if 1 < valid.length then jitterSum valid / ((valid.length : ℚ) - 1)
        else 0
      let variance :=
        ((valid.map fun x => (x - avg_latency) ^ 2).sum) / (valid.length : ℚ)
      { packet_loss_percent := pyRound2 packet_loss,
        average_latency := some (pyRound2 avg_latency),
        min_latency := some (pyRound2 (pyMin valid)),
        max_latency := some (pyRound2 (pyMax valid)),
        jitter := some (pyRound2 jitter),
        variance := some variance,
        records := records }

/-- `std_deviation = variance ** 0.5`, reported as `round(std_deviation, 2)`:
the only aggregate that leaves `ℚ`. -/
noncomputable def Metrics.std_deviation (m : Metrics) : Option ℝ :=
  m.variance.map fun v : ℚ => pyRound2 (Real.sqrt (v : ℝ))

/-! ## Raw-sample persistence (`csv_logger.py`)

A raw partition file holds the rows of one `(target, day)`; `csv_logging_task`
keeps a per-target high-water mark `last_written[target]` (an epoch second)
and each cycle appends exactly the stored samples whose `iso_to_epoch`
timestamp exceeds it. -/

/-- `int(datetime.fromisoformat(ts).timestamp())` — the identity at this
model's epoch-second granularity. -/
def iso_to_epoch (ts : Nat) : Nat := ts

/-- `datetime.fromisoformat(record["timestamp"]).date()` as an epoch day. -/
def dayOf (ts : Nat) : Nat := ts / 86400

/-- One target's raw partition files: each existing day-file's rows, `none`
when the file does not yet exist (its header row is written on creation). -/
def DayFiles := Nat → Option (List Sample)

/-- `append_csv_log(target, records)`: returns immediately on an empty batch;
otherwise groups the batch by calendar day (`records_by_date`, preserving
within-day order) and appends each day-group to that day's file, creating the
file if absent. -/
def append_csv_log (files : DayFiles) (records : List Sample) : DayFiles :=
  if records = [] then files
  else fun d =>
    if records.any fun r => dayOf r.timestamp = d then
      some ((files d).getD [] ++ records.filter fun r => dayOf r.timestamp = d)
    else files d

/-- The per-target state the raw-drain half of `csv_logging_task` works on:
the store's sequence (read-only here), `last_written[target]`, and the
target's partition files. -/
structure TargetLogState where
  stored : List Sample
  last_written : Nat
  files : DayFiles

/-- `new_records`: the stored samples whose `iso_to_epoch` timestamp is
strictly greater than the target's high-water mark. -/
def selectNewRecords (st : TargetLogState) : List Sample :=
  st.stored.filter fun r => st.last_written < iso_to_epoch r.timestamp

/-- One raw-drain step for one target (the body of the first `for` loop of
`csv_logging_task`): filter the stored samples to those with
`iso_to_epoch(timestamp) > last_written`, and if any exist append them and
advance `last_written` to the epoch of the last one (`new_records[-1]`). -/
def drainTarget (st : TargetLogState) : TargetLogState :=
  let new_records := selectNewRecords st
  match new_records.getLast? with
  | none => st
  | some lastR =>
      { st with
        files := append_csv_log st.files new_records,
        last_written := iso_to_epoch lastR.timestamp }

/-- Samples are produced and stored in non-decreasing timestamp order (spec
section 3); the drain's convergence depends on it. -/
def Chrono (l : List Sample) : Prop :=
  l.Pairwise fun a b => a.timestamp ≤ b.timestamp

/-! ### The whole cycle with write failures (`csv_logging_task`)

`csv_logging_task` iterates the first `for` loop over all of `TARGETS` with
no `try`/`except` anywhere in the task: an exception raised by
`append_csv_log` (e.g. `open` failing) propagates out of the loop and kills
the logging thread.  The model threads an explicit failure oracle; a failing
append is `Except.error target`, raised before `last_written[target]` is
assigned. -/

/-- Per-target cycle state: stores, high-water marks and files keyed by
target. -/
structure CycleState where
  stored : String → List Sample
  last_written : String → Nat
  files : String → DayFiles

/-- The body of the raw-data `for` loop for one target.  `fails t = true`
models `append_csv_log` raising on target `t`'s file. -/
def cycleRawStep (fails : String → Bool) (t : String) (st : CycleState) :
    Except String CycleState :=
  let new_records :=
    (st.stored t).filter fun r => st.last_written t < iso_to_epoch r.timestamp
  if new_records = [] then .ok st
  else if fails t then .error t
  else .ok
    { st with
      files := Function.update st.files t (append_csv_log (st.files t) new_records),
      last_written := Function.update st.last_written t
        (iso_to_epoch ((new_records.getLast?.getD ⟨0, none⟩).timestamp)) }

/-- The raw-data `for target in TARGETS` loop.  An exception from one step
propagates: the remaining targets are never reached. -/
def cycleRaw (fails : String → Bool) : List String → CycleState → Except String CycleState
  | [], st => .ok st
  | t :: ts, st =>
      match cycleRawStep fails t st with
      | .error e => .error e
      | .ok st' => cycleRaw fails ts st'

/-! ## CSV encoding of raw rows (`append_csv_log` / `load_recent_data`)

`csv.writer.writerow([record["timestamp"], record["latency"], network])`
renders a Python `None` as an *empty* cell and a float via `str`.
`load_recent_data` decodes `latency_ms` with
`None if cell == "None" else float(cell)`. -/

/-- Decimal digits of the fractional part of a non-negative rational, most
significant first, up to `k` digits (enough for any value `str` prints). -/
def fracDigits : ℚ → Nat → List Nat
  | _, 0 => []
  | f, k + 1 => if f = 0 then [] else
      let d := (f * 10).floor.toNat
      d :: fracDigits (f * 10 - (f * 10).floor) k

/-- `str` of a latency float, e.g. `"12.5"` (Python always prints a decimal
point for floats). -/
def qToPyStr (q : ℚ) : String :=
  let sgn := if q < 0 then "-" else ""
  let a := |q|
  let ds := fracDigits (a - a.floor) 17
  let frac := if ds = [] then "0" else String.join (ds.map fun d => toString d)
  sgn ++ toString a.floor.toNat ++ "." ++ frac

/-- The `latency_ms` cell `csv.writer` produces: `None` becomes the empty
string, a float its `str`. -/
def latencyCell : Option ℚ → String
  | none => ""
  | some q => qToPyStr q

/-- The rows `append_csv_log` writes for a batch (timestamp cell, latency
cell, network cell), in batch order. -/
def writeRows (network : String) (records : List Sample) :
    List (String × String × String) :=
  records.map fun r => (toString r.timestamp, latencyCell r.latency, network)

/-- Digit-string value, `float`-style. -/
def digitsVal (cs : List Char) : Nat :=
  cs.foldl (fun a c => a * 10 + (c.toNat - 48)) 0

/-- Python `float(s)` on the strings this pipeline produces: digits with at
most one decimal point.  `float("")` and `float("None")` raise
`ValueError`. -/
def pyFloat (s : String) : Except Unit ℚ :=
  let cs := s.toList
  let a := cs.takeWhile fun c => c ≠ '.'
  match cs.dropWhile fun c => c ≠ '.' with
  | [] =>
      if a ≠ [] ∧ a.all Char.isDigit then .ok ((digitsVal a : ℚ))
      else .error ()
  | _ :: b =>
      if ¬b.contains '.' ∧ (a ++ b) ≠ [] ∧ (a ++ b).all Char.isDigit then
        .ok ((digitsVal a : ℚ) + (digitsVal b : ℚ) / 10 ^ b.length)
      else .error ()

/-- `None if record["latency_ms"] == "None" else float(record["latency_ms"])`. -/
def parseLatency (s : String) : Except Unit (Option ℚ) :=
  if s = "None" then .ok none else (pyFloat s).map some

/-- Reading one partition file's rows back (the inner loop of
`load_recent_data`): each row yields a `(timestamp, latency)` pair; a
`ValueError` aborts the file (the surrounding `except` catches it). -/
def loadRows : List (String × String × String) → Except Unit (List (String × Option ℚ))
  | [] => .ok []
  | (ts, lat, _) :: rest => do
      let l ← parseLatency lat
      let tl ← loadRows rest
      .ok ((ts, l) :: tl)

/-! ## Cleanup (`manage_data.cleanup_old_data`, `main.cleanup_old_logs`)

Both functions refuse `days_to_keep < 7` outright and otherwise walk
`range(days_to_keep, days_to_keep + 365)` days back, deleting a date's files
only when `check_date < cutoff_date`.  Dates are modelled as integers
(days); the functions return the dates whose files they delete, `none` when
rejected. -/

/-- `manage_data.cleanup_old_data(days_to_keep)`: the dates it deletes files
for, relative to `today`. -/
def cleanup_old_data (days_to_keep : Nat) (today : ℤ) : Option (List ℤ) :=
  if days_to_keep < 7 then none
  else
    let cutoff_date := today - days_to_keep
    some ((((List.range 365).map fun k => today - (days_to_keep + k : Nat))).filter
      fun d => d < cutoff_date)

/-- `main.cleanup_old_logs(days_to_keep)`: same floor and same date walk as
`cleanup_old_data` (it returns an error dict instead of printing). -/
def cleanup_old_logs (days_to_keep : Nat) (today : ℤ) : Option (List ℤ) :=
  if days_to_keep < 7 then none
  else
    let cutoff_date := today - days_to_keep
    some ((((List.range 365).map fun k => today - (days_to_keep + k : Nat))).filter
      fun d => d < cutoff_date)

/-! ## Network-name sanitizing (`wifi_detector.sanitize_network_name`)

Both regex substitutions are single-character classes, so they are
per-character maps.  The classes are Unicode: Python's `\w` matches every
Unicode alphanumeric (in the `str.isalnum` sense) plus `_`, `\s` the Unicode
whitespace, and `str.lower` applies the full Unicode lowercase mapping
(e.g. the Kelvin sign U+212A lowers to `k`).  A Lean embedding cannot carry
the Unicode tables, so the sanitizer is embedded *parametrically* in that
interface (`PyStrApi`): every theorem below quantifies over the interface —
so it holds in particular at Python's real classification — and the facts of
the real classification a proof needs are stated explicitly
(`PyStrApi.WellFormed`).  Concrete examples are evaluated at the ASCII
fragment `asciiApi`, which agrees with Python's functions on the ASCII-only
strings they are applied to. -/

/-- The pieces of Python's Unicode string machinery that
`sanitize_network_name` consumes: `str.isalnum`'s character class (which,
together with `_`, is the regex `\w`), the regex `\s` class, and
`str.lower`. -/
structure PyStrApi where
  isAlnum : Char → Bool
  isSpace : Char → Bool
  lower : List Char → List Char

/-- First substitution, the class `<>:"/\|?*` plus whitespace, replaced by
an underscore. -/
def sub1 (api : PyStrApi) (c : Char) : Char :=
  if (c = '<' ∨ c = '>' ∨ c = ':' ∨ c = '"' ∨ c = '/' ∨ c = '\\' ∨ c = '|' ∨
      c = '?' ∨ c = '*') ∨ api.isSpace c then '_' else c

/-- Second substitution: any character outside `\w`, `-`, `_`, `.` becomes
an underscore. -/
def sub2 (api : PyStrApi) (c : Char) : Char :=
  if (api.isAlnum c ∨ c = '_') ∨ (c = '-' ∨ c = '.') then c else '_'

/-- The third substitution squeezes every run of underscores to one
(`re.sub` of one-or-more underscores): a character equal to its successor
with both underscores is dropped, keeping one underscore per run. -/
def collapseU : List Char → List Char
  | [] => []
  | [c] => [c]
  | c :: d :: rest =>
      if c = '_' ∧ d = '_' then collapseU (d :: rest)
      else c :: collapseU (d :: rest)

/-- `.strip` of underscores: drop them from both ends. -/
def stripU (l : List Char) : List Char :=
  (l.dropWhile fun c => c = '_').rdropWhile fun c => c = '_'

/-- The substitution pipeline of `sanitize_network_name`: the two character
substitutions, the underscore squeeze, the strip, then (only if the result
is longer than 50) the 50-character truncation. -/
def sanitizeCore (api : PyStrApi) (name : List Char) : List Char :=
  let s := stripU (collapseU ((name.map (sub1 api)).map (sub2 api)))
  if 50 < s.length then s.take 50 else s

/-- `sanitize_network_name(name)`: empty or sentinel-cased names collapse to
`"unknown"`, otherwise the pipeline runs and an empty outcome also falls
back to `"unknown"`. -/
def sanitize_network_name (api : PyStrApi) (name : List Char) : List Char :=
  if name = [] ∨ api.lower name = "unknown".toList ∨
      api.lower name = "off/any".toList
  then "unknown".toList
  else
    let s := sanitizeCore api name
    if s = [] then "unknown".toList else s

/-- Facts of Python's real string machinery that the sanitizer proofs rely
on: no alphanumeric character is whitespace or one of the nine replaced
specials; `-`, `_`, `.` are not whitespace; the letters of the sentinel
`"unknown"` are alphanumeric; and `"unknown"` is its own lowercase. -/
def PyStrApi.WellFormed (api : PyStrApi) : Prop :=
  (∀ c : Char, api.isAlnum c = true →
      api.isSpace c = false ∧
      ¬(c = '<' ∨ c = '>' ∨ c = ':' ∨ c = '"' ∨ c = '/' ∨ c = '\\' ∨ c = '|' ∨
        c = '?' ∨ c = '*'))
  ∧ api.isSpace '-' = false ∧ api.isSpace '_' = false ∧ api.isSpace '.' = false
  ∧ (∀ c ∈ "unknown".toList, api.isAlnum c = true)
  ∧ api.lower "unknown".toList = "unknown".toList

/-- ASCII alphanumeric, by code point. -/
def asciiIsAlnum (c : Char) : Bool :=
  (65 ≤ c.toNat ∧ c.toNat ≤ 90) ∨ (97 ≤ c.toNat ∧ c.toNat ≤ 122) ∨
    (48 ≤ c.toNat ∧ c.toNat ≤ 57)

/-- The six ASCII `\s` characters. -/
def isPySpace (c : Char) : Bool :=
  c = ' ' ∨ c = '\t' ∨ c = '\n' ∨ c = '\x0d' ∨ c = '\x0b' ∨ c = '\x0c'

/-- ASCII `str.lower` on one character. -/
def lowerChar (c : Char) : Char :=
  if 'A' ≤ c ∧ c ≤ 'Z' then Char.ofNat (c.toNat + 32) else c

/-- The ASCII fragment of the Python string API.  On ASCII-only strings it
agrees with Python's Unicode functions, so evaluating the sanitizer at
`asciiApi` on an ASCII input reproduces the program's behaviour exactly;
all concrete examples below are ASCII. -/
def asciiApi : PyStrApi :=
  { isAlnum := asciiIsAlnum, isSpace := isPySpace, lower := fun l => l.map lowerChar }

/-! ## Claim-side formulations

The claims state some aggregates in a shape different from the code's; these
definitions spell the claims' formulas, to be proved equal to what
`get_metrics` computes. -/

/-- The claim's jitter numerator: the absolute differences of consecutive
valid latencies, taken in stored (chronological) order. -/
def consecAbsDiffs : List ℚ → List ℚ
  | a :: b :: t => |b - a| :: consecAbsDiffs (b :: t)
  | _ => []

/-- The claim's notion of a filesystem-safe character: alphanumeric (in the
sense of the classification the sanitizer runs with — Python's Unicode
`str.isalnum`), `-`, `_` or `.`. -/
def fsSafe (api : PyStrApi) (c : Char) : Prop :=
  api.isAlnum c = true ∨ c = '-' ∨ c = '_' ∨ c = '.'

instance (api : PyStrApi) : DecidablePred (fsSafe api) := fun c => by
  unfold fsSafe
  infer_instance

/-! ## Shared lemmas -/

theorem pyRound2_zero {α : Type} [LinearOrderedField α] [FloorRing α] :
    pyRound2 (0 : α) = 0 := by
  simp [pyRound2]

/-- The boundary rounding is exact on values that are already integer
multiples of `1/100` — in particular on every concrete value the claims
exhibit. -/
theorem pyRound2_eq_self {α : Type} [LinearOrderedField α] [FloorRing α]
    (x : α) (k : ℤ) (h : x * 100 = (k : α)) : pyRound2 x = x := by
  unfold pyRound2
  rw [h, Int.floor_intCast, sub_self, if_pos (by norm_num)]
  rw [eq_comm, eq_div_iff (by norm_num : (100 : α) ≠ 0), h]

theorem dequeAppend_length_le {α : Type} (m : Nat) (q : List α) (x : α)
    (h : q.length ≤ m) : (dequeAppend m q x).length ≤ m := by
  unfold dequeAppend
  split
  · simp only [List.length_append, List.length_singleton]
    omega
  · split
    · simp
    · simp only [List.length_append, List.length_drop, List.length_singleton]
      omega

theorem MetricStore.add_data_length_le (st : MetricStore) (t u : String)
    (lat : Option ℚ) (ts : Nat) (h : (st.data u).length ≤ st.retention) :
    ((st.add t lat ts).data u).length ≤ (st.add t lat ts).retention := by
  unfold MetricStore.add
  split
  · by_cases hu : u = t
    · subst hu
      simp only [Function.update_same]
      exact dequeAppend_length_le _ _ _ h
    · simpa [Function.update_noteq hu] using h
  · exact h

theorem MetricStore.add_retention (st : MetricStore) (t : String)
    (lat : Option ℚ) (ts : Nat) : (st.add t lat ts).retention = st.retention := by
  unfold MetricStore.add
  split <;> rfl

theorem MetricStore.addMany_retention (t : String) (xs : List (Option ℚ × Nat)) :
    ∀ st : MetricStore, (st.addMany t xs).retention = st.retention := by
  induction xs with
  | nil => intro st; rfl
  | cons p xs ih =>
      intro st
      show ((st.add t p.1 p.2).addMany t xs).retention = _
      rw [ih, MetricStore.add_retention]

theorem MetricStore.addMany_data_length_le (t : String) (xs : List (Option ℚ × Nat)) :
    ∀ st : MetricStore, (∀ u, (st.data u).length ≤ st.retention) →
      ∀ u, ((st.addMany t xs).data u).length ≤ (st.addMany t xs).retention := by
  induction xs with
  | nil => intro st h u; exact h u
  | cons p xs ih =>
      intro st h u
      exact ih (st.add t p.1 p.2) (fun v => st.add_data_length_le t v p.1 p.2 (h v)) u

/-! ## C3 — bounded capacity and strict FIFO eviction -/

/-- C3.  For every target and every sequence of `add` calls, the stored
sequence never exceeds `RETENTION_SECONDS / PING_INTERVAL` samples (the deque
is created with `maxlen = retention_seconds` and the configured interval is
one second, so the two capacities coincide); an `add` at capacity drops
exactly the oldest sample and appends the new one at the end, leaving the
other samples and their order unchanged; an `add` below capacity is a plain
append. -/
theorem store_capacity_fifo :
    (∀ (t : String) (xs : List (Option ℚ × Nat)),
      (((MetricStore.init RETENTION_SECONDS).addMany t xs).data t).length ≤
        RETENTION_SECONDS / PING_INTERVAL)
    ∧ (∀ (st : MetricStore) (t : String) (lat : Option ℚ) (ts : Nat),
        t ∈ TARGETS → (st.data t).length = st.retention → 0 < st.retention →
        (st.add t lat ts).data t = (st.data t).drop 1 ++ [⟨ts, lat⟩])
    ∧ (∀ (st : MetricStore) (t : String) (lat : Option ℚ) (ts : Nat),
        t ∈ TARGETS → (st.data t).length < st.retention →
        (st.add t lat ts).data t = st.data t ++ [⟨ts, lat⟩]) := by
  refine ⟨fun t xs => ?_, fun st t lat ts ht hlen hpos => ?_, fun st t lat ts ht hlen => ?_⟩
  · have h := MetricStore.addMany_data_length_le t xs (MetricStore.init RETENTION_SECONDS)
      (fun _ => by simp [MetricStore.init]) t
    rw [MetricStore.addMany_retention] at h
    simpa [MetricStore.init, RETENTION_SECONDS, PING_INTERVAL] using h
  · unfold MetricStore.add
    rw [if_pos ht]
    simp only [Function.update_same]
    unfold dequeAppend
    rw [if_neg (by omega), if_neg (by omega)]
  · unfold MetricStore.add
    rw [if_pos ht]
    simp only [Function.update_same]
    unfold dequeAppend
    rw [if_pos hlen]

/-! ## C4 — packet loss, and the empty-window snapshot -/

/-- C4.  A snapshot of an empty sequence reports `packet_loss_percent =
100.0` with every other statistic undefined, and a snapshot of a non-empty
sequence reports `100 * (N - |V|) / N` (as everywhere, the reported value
passes through the spec's two-decimal boundary rounding, `pyRound2`). -/
theorem packet_loss_spec :
    ((get_metrics []).packet_loss_percent = 100
      ∧ (get_metrics []).average_latency = none
      ∧ (get_metrics []).min_latency = none
      ∧ (get_metrics []).max_latency = none
      ∧ (get_metrics []).jitter = none
      ∧ (get_metrics []).std_deviation = none)
    ∧ (∀ records : List Sample, records ≠ [] →
        (get_metrics records).packet_loss_percent =
          pyRound2 (100 * ((records.length : ℚ) -
            ((valid_latencies records).length : ℚ)) / (records.length : ℚ))) := by
  constructor
  · refine ⟨rfl, rfl, rfl, rfl, rfl, ?_⟩
    simp [get_metrics, Metrics.std_deviation]
  · intro records h
    simp only [get_metrics, if_neg h]
    split <;> rfl

/-! ## C1 — jitter is the chronological mean of consecutive differences -/

theorem jitterSum_cons (a b : ℚ) (t : List ℚ) :
    jitterSum (a :: b :: t) = |b - a| + jitterSum (b :: t) := by
  unfold jitterSum
  simp only [List.length_cons]
  rw [Finset.sum_Ico_eq_sum_range, Finset.sum_Ico_eq_sum_range]
  have h2 : t.length + 1 + 1 - 1 = t.length + 1 := rfl
  have h1 : t.length + 1 - 1 = t.length := rfl
  rw [h2, h1, Finset.sum_range_succ', add_comm (|b - a|)]
  congr 1
  apply Finset.sum_congr rfl
  intro i _
  have e1 : 1 + (i + 1) = i + 2 := by omega
  have e2 : i + 2 - 1 = i + 1 := by omega
  have e3 : 1 + i = i + 1 := by omega
  have e4 : i + 1 - 1 = i := by omega
  rw [e1, e2, e3, e4]
  simp only [List.getD_cons_succ]

theorem jitterSum_eq_consec : ∀ l : List ℚ, jitterSum l = (consecAbsDiffs l).sum
  | [] => by simp [jitterSum, consecAbsDiffs]
  | [_] => by simp [jitterSum, consecAbsDiffs]
  | a :: b :: t => by
      rw [jitterSum_cons, jitterSum_eq_consec (b :: t)]
      simp [consecAbsDiffs]

/-- C1.  With at least two valid latencies, the reported jitter is the mean
of the absolute differences of consecutive valid latencies taken in stored
(chronological) order, `sum |V i - V (i-1)| / (|V| - 1)` (through the
two-decimal boundary rounding, which is exact on the claim's examples); on
`[10, 20, 15]` the jitter is `7.5`; with exactly one valid latency it is
`0.0`, not undefined. -/
theorem jitter_chronological_mean :
    (∀ records : List Sample, 2 ≤ (valid_latencies records).length →
      (get_metrics records).jitter =
        some (pyRound2 ((consecAbsDiffs (valid_latencies records)).sum /
          (((valid_latencies records).length : ℚ) - 1))))
    ∧ (get_metrics [⟨0, some 10⟩, ⟨1, some 20⟩, ⟨2, some 15⟩]).jitter = some (15 / 2)
    ∧ (∀ records : List Sample, (valid_latencies records).length = 1 →
        (get_metrics records).jitter = some 0) := by
  refine ⟨fun records h2 => ?_, ?_, fun records h1 => ?_⟩
  case refine_2 =>
    have hval : valid_latencies [⟨0, some 10⟩, ⟨1, some 20⟩, ⟨2, some 15⟩] =
        [10, 20, 15] := rfl
    simp only [get_metrics, hval]
    rw [if_neg (by simp), if_neg (by simp), if_pos (by norm_num)]
    have hc : jitterSum [(10 : ℚ), 20, 15] = 15 := by
      rw [jitterSum_eq_consec]
      norm_num [consecAbsDiffs]
    rw [hc]
    norm_num
    exact pyRound2_eq_self _ 750 (by norm_num)
  · have hne : records ≠ [] := by
      intro h'
      rw [h'] at h2
      simp [valid_latencies] at h2
    have hv : valid_latencies records ≠ [] := by
      intro h'
      rw [h'] at h2
      simp at h2
    simp only [get_metrics, if_neg hne, if_neg hv]
    rw [if_pos (by omega), jitterSum_eq_consec]
  · have hne : records ≠ [] := by
      intro h'
      rw [h'] at h1
      simp [valid_latencies] at h1
    have hv : valid_latencies records ≠ [] := by
      intro h'
      rw [h'] at h1
      simp at h1
    simp only [get_metrics, if_neg hne, if_neg hv]
    rw [if_neg (by omega), pyRound2_zero]

/-! ## C5 — population standard deviation; the singleton snapshot -/

/-- C5.  With at least one valid latency the reported standard deviation is
the population standard deviation `sqrt(mean((x - mean V)^2))` — the variance
divides by `|V|`, with no Bessel correction — through the boundary rounding;
and on exactly one valid sample the snapshot reports `std_deviation = 0`,
`jitter = 0` and `min = max = average =` that latency (rounded at the
boundary). -/
theorem std_population_and_singleton :
    (∀ records : List Sample, 1 ≤ (valid_latencies records).length →
      (get_metrics records).std_deviation =
        some (pyRound2 (Real.sqrt ((((valid_latencies records).map fun x =>
          (x - (valid_latencies records).sum /
            ((valid_latencies records).length : ℚ)) ^ 2).sum /
          ((valid_latencies records).length : ℚ) : ℚ)))))
    ∧ (∀ (records : List Sample) (x : ℚ), valid_latencies records = [x] →
        (get_metrics records).std_deviation = some 0
        ∧ (get_metrics records).jitter = some 0
        ∧ (get_metrics records).min_latency = some (pyRound2 x)
        ∧ (get_metrics records).max_latency = some (pyRound2 x)
        ∧ (get_metrics records).average_latency = some (pyRound2 x)) := by
  constructor
  · intro records h1
    have hne : records ≠ [] := by
      intro h'
      rw [h'] at h1
      simp [valid_latencies] at h1
    have hv : valid_latencies records ≠ [] := by
      intro h'
      rw [h'] at h1
      simp at h1
    simp only [get_metrics, if_neg hne, if_neg hv, Metrics.std_deviation, Option.map_some']
  · intro records x hx
    have hne : records ≠ [] := by
      intro h'
      rw [h'] at hx
      simp [valid_latencies] at hx
    have hv : valid_latencies records ≠ [] := by
      rw [hx]
      simp
    simp only [get_metrics, if_neg hne, if_neg hv, hx]
    refine ⟨?_, ?_, ?_, ?_, ?_⟩
    · simp [Metrics.std_deviation, pyRound2_zero]
    · simp [pyRound2_zero]
    · simp [pyMin]
    · simp [pyMax]
    · simp

/-! ## C8 — the seven-day cleanup floor -/

/-- C8.  Both cleanup entry points reject `days_to_keep < 7` outright,
deleting nothing (the floor is enforced, not a default); and at
`days_to_keep = 7` every date whose files they delete is strictly older than
`today - 7`, so no file dated within the last seven days is touched. -/
theorem cleanup_floor_seven :
    (∀ today : ℤ, cleanup_old_data 3 today = none ∧ cleanup_old_logs 3 today = none)
    ∧ (∀ (d : Nat) (today : ℤ), d < 7 →
        cleanup_old_data d today = none ∧ cleanup_old_logs d today = none)
    ∧ (∀ (today : ℤ) (l : List ℤ), cleanup_old_data 7 today = some l →
        ∀ date ∈ l, date < today - 7)
    ∧ (∀ (today : ℤ) (l : List ℤ), cleanup_old_logs 7 today = some l →
        ∀ date ∈ l, date < today - 7) := by
  refine ⟨fun today => ⟨rfl, rfl⟩, fun d today hd => ?_, fun today l hl date hdate => ?_,
    fun today l hl date hdate => ?_⟩
  · unfold cleanup_old_data cleanup_old_logs
    rw [if_pos hd]
    exact ⟨rfl, rfl⟩
  · unfold cleanup_old_data at hl
    rw [if_neg (by norm_num)] at hl
    obtain rfl := (Option.some_injective _ hl.symm).symm
    have := List.of_mem_filter hdate
    simpa using of_decide_eq_true this
  · unfold cleanup_old_logs at hl
    rw [if_neg (by norm_num)] at hl
    obtain rfl := (Option.some_injective _ hl.symm).symm
    have := List.of_mem_filter hdate
    simpa using of_decide_eq_true this

/-! ## C2 — exact drain selection and high-water-mark convergence -/

theorem drainTarget_of_empty (st : TargetLogState) (h : selectNewRecords st = []) :
    drainTarget st = st := by
  simp [drainTarget, h]

theorem drainTarget_of_getLast (st : TargetLogState) (r : Sample)
    (h : (selectNewRecords st).getLast? = some r) :
    drainTarget st =
      { st with
        files := append_csv_log st.files (selectNewRecords st),
        last_written := iso_to_epoch r.timestamp } := by
  simp [drainTarget, h]

theorem chrono_le_getLast :
    ∀ l : List Sample, Chrono l → ∀ r, l.getLast? = some r →
      ∀ s ∈ l, s.timestamp ≤ r.timestamp
  | [], _, r, hr, s, hs => by simp at hs
  | [a], _, r, hr, s, hs => by
      simp at hr hs
      subst hr
      subst hs
      exact le_refl _
  | a :: b :: t, hc, r, hr, s, hs => by
      rw [List.getLast?_cons_cons] at hr
      rw [Chrono, List.pairwise_cons] at hc
      rcases List.mem_cons.mp hs with rfl | hs'
      · exact le_trans (hc.1 r (List.mem_of_getLast?_eq_some hr)) (le_refl _)
      · exact chrono_le_getLast (b :: t) hc.2 r hr s hs'

/-- C2.  Per drain cycle and target: exactly the stored samples with
timestamp strictly above the high-water mark are selected, and the cycle
appends them, grouped by calendar day, to the day files (days with no
selected sample keep their file untouched, absent files stay absent); a
non-empty selection advances the mark to the timestamp of the last sample
written; an empty selection is a strict no-op; and since stored samples are
in chronological order, a second drain with no new samples in between is the
identity — zero additional rows, mark unchanged. -/
theorem drain_high_water_mark :
    (∀ (st : TargetLogState) (d : Nat),
      ((selectNewRecords st).filter fun r => dayOf r.timestamp = d) ≠ [] →
      (drainTarget st).files d =
        some ((st.files d).getD [] ++
          ((selectNewRecords st).filter fun r => dayOf r.timestamp = d)))
    ∧ (∀ (st : TargetLogState) (d : Nat),
        ((selectNewRecords st).filter fun r => dayOf r.timestamp = d) = [] →
        (drainTarget st).files d = st.files d)
    ∧ (∀ (st : TargetLogState) (r : Sample),
        (selectNewRecords st).getLast? = some r →
        (drainTarget st).last_written = r.timestamp)
    ∧ (∀ st : TargetLogState, selectNewRecords st = [] → drainTarget st = st)
    ∧ (∀ st : TargetLogState, Chrono st.stored →
        drainTarget (drainTarget st) = drainTarget st) := by
  have hne_of_filter : ∀ (st : TargetLogState) (d : Nat),
      ((selectNewRecords st).filter fun r => dayOf r.timestamp = d) ≠ [] →
      selectNewRecords st ≠ [] := by
    intro st d h hsel
    rw [hsel] at h
    simp at h
  refine ⟨fun st d h => ?_, fun st d h => ?_, fun st r h => ?_, drainTarget_of_empty,
    fun st hc => ?_⟩
  · obtain ⟨r, hr⟩ := Option.isSome_iff_exists.mp
      (List.getLast?_isSome.mpr (hne_of_filter st d h))
    rw [drainTarget_of_getLast st r hr]
    show append_csv_log st.files (selectNewRecords st) d = _
    unfold append_csv_log
    rw [if_neg (hne_of_filter st d h)]
    have hany : ((selectNewRecords st).any fun r => dayOf r.timestamp = d) = true := by
      obtain ⟨a, ha⟩ := List.exists_mem_of_ne_nil _ h
      have := List.mem_filter.mp ha
      exact List.any_eq_true.mpr ⟨a, this.1, this.2⟩
    rw [if_pos hany]
  · cases hsel : (selectNewRecords st).getLast? with
    | none =>
        rw [drainTarget_of_empty st (List.getLast?_eq_none_iff.mp hsel)]
    | some r =>
        rw [drainTarget_of_getLast st r hsel]
        show append_csv_log st.files (selectNewRecords st) d = _
        unfold append_csv_log
        split
        · rfl
        · have hnoany : ((selectNewRecords st).any fun r => dayOf r.timestamp = d) ≠ true := by
            intro hany
            obtain ⟨a, ha, had⟩ := List.any_eq_true.mp hany
            have : a ∈ (selectNewRecords st).filter fun r => dayOf r.timestamp = d :=
              List.mem_filter.mpr ⟨ha, had⟩
            rw [h] at this
            simp at this
          simp only [if_neg hnoany]
  · rw [drainTarget_of_getLast st r h]
    rfl
  · cases hsel : (selectNewRecords st).getLast? with
    | none =>
        rw [drainTarget_of_empty st (List.getLast?_eq_none_iff.mp hsel)]
        rw [drainTarget_of_empty st (List.getLast?_eq_none_iff.mp hsel)]
    | some r =>
        rw [drainTarget_of_getLast st r hsel]
        apply drainTarget_of_empty
        rw [selectNewRecords]
        apply List.filter_eq_nil_iff.mpr
        intro s hs
        simp only [decide_eq_true_eq, not_lt]
        show s.timestamp ≤ r.timestamp
        by_cases hgt : st.last_written < s.timestamp
        · have hmem : s ∈ selectNewRecords st := by
            rw [selectNewRecords]
            exact List.mem_filter.mpr ⟨hs, by simpa [iso_to_epoch] using hgt⟩
          exact chrono_le_getLast (selectNewRecords st)
            (List.Pairwise.filter _ hc) r hsel s hmem
        · have hr_mem : r ∈ selectNewRecords st := List.mem_of_getLast?_eq_some hsel
          have := (List.mem_filter.mp hr_mem).2
          simp only [iso_to_epoch, decide_eq_true_eq] at this
          omega

/-! ## C6 — what a write failure actually does to the cycle

`csv_logging_task` has no `try`/`except`: an exception from `append_csv_log`
propagates out of the `for` loop.  The claim's "caught and logged, remaining
targets still attempted" is refuted by the counterexample below; what does
hold is that the failure aborts the cycle before the failed target's
high-water mark is assigned. -/

/-- C6 (counterexample).  With two targets both holding unpersisted samples
and the first target's file write failing, the cycle raises out of the loop
(`Except.error`) instead of catching the failure — the second target, though
it has a non-empty selection, is never attempted. -/
theorem write_failure_not_caught_cex :
    cycleRaw (fun t => t == "1.1.1.1") ["1.1.1.1", "8.8.8.8"]
        { stored := fun t => if t = "1.1.1.1" then [⟨10, some 5⟩] else [⟨20, some 7⟩],
          last_written := fun _ => 0,
          files := fun _ _ => none } = Except.error "1.1.1.1"
    ∧ ((fun t : String =>
          if t = "1.1.1.1" then [Sample.mk 10 (some 5)] else [Sample.mk 20 (some 7)])
            "8.8.8.8").filter (fun r => 0 < iso_to_epoch r.timestamp) ≠ [] := by
  exact ⟨rfl, by simp [iso_to_epoch]⟩

/-- C6 (amended).  A write failure while appending one target's partition
file is not caught: the exception aborts the drain loop, so the remaining
targets are not attempted in that cycle and no high-water mark is assigned
for the failed target (the mark is only updated after a successful append),
leaving its records selected for any later cycle; conversely every cycle
abort originates from a failing target in the list. -/
theorem write_failure_aborts_cycle :
    (∀ (fails : String → Bool) (t : String) (ts : List String) (st : CycleState),
      fails t = true →
      (st.stored t).filter (fun r => st.last_written t < iso_to_epoch r.timestamp) ≠ [] →
      cycleRaw fails (t :: ts) st = Except.error t)
    ∧ (∀ (fails : String → Bool) (ts : List String) (st : CycleState) (t : String),
        cycleRaw fails ts st = Except.error t → fails t = true ∧ t ∈ ts) := by
  constructor
  · intro fails t ts st h1 h2
    have hstep : cycleRawStep fails t st = Except.error t := by
      simp only [cycleRawStep]
      rw [if_neg h2, if_pos h1]
    unfold cycleRaw
    rw [hstep]
  · intro fails ts
    induction ts with
    | nil =>
        intro st t h
        simp [cycleRaw] at h
    | cons t' ts ih =>
        intro st t h
        unfold cycleRaw at h
        rcases hstep : cycleRawStep fails t' st with e | st'
        · rw [hstep] at h
          injection h with he
          subst he
          simp only [cycleRawStep] at hstep
          rcases h0 : (st.stored t').filter
              (fun r => st.last_written t' < iso_to_epoch r.timestamp) with _ | ⟨s, ss⟩
          · rw [if_pos h0] at hstep
            exact Except.noConfusion hstep
          · rw [if_neg (by rw [h0]; exact fun hx => List.noConfusion hx)] at hstep
            by_cases hf : fails t' = true
            · rw [if_pos hf] at hstep
              injection hstep with he'
              subst he'
              exact ⟨hf, List.mem_cons_self t' ts⟩
            · rw [if_neg hf] at hstep
              exact Except.noConfusion hstep
        · rw [hstep] at h
          obtain ⟨hfa, hmem⟩ := ih st' t h
          exact ⟨hfa, List.mem_cons_of_mem t' hmem⟩

/-! ## C7 — the raw-row round trip on unreachable samples

`csv.writer` renders a `None` latency as an empty cell, while
`load_recent_data` decodes only the literal string `"None"` and otherwise
calls `float` — which raises `ValueError` on the empty cell.  The write/read
pair of the repository therefore cannot round-trip an unreachable sample. -/

/-- C7 (evaluation at the failing input).  Writing a one-sample batch whose
latency is `none` and reading the rows back yields a `ValueError`
(`Except.error`), not the written `(timestamp, latency)` pair. -/
theorem none_latency_roundtrip_fails :
    loadRows (writeRows "HomeNet" [⟨0, none⟩]) = Except.error ()
    ∧ loadRows (writeRows "HomeNet" [⟨0, none⟩]) ≠
        Except.ok [(toString (0 : Nat), (none : Option ℚ))] := by
  have h1 : loadRows (writeRows "HomeNet" [⟨0, none⟩]) = Except.error () := rfl
  refine ⟨h1, ?_⟩
  rw [h1]
  intro h
  exact Except.noConfusion h

/-! ## C9/C10 — sanitizer lemmas -/

/-- The second substitution only ever emits filesystem-safe characters,
whatever the word classification: kept characters pass its own class test
and everything else becomes an underscore. -/
theorem fsSafe_sub2 (api : PyStrApi) (c : Char) : fsSafe api (sub2 api c) := by
  unfold sub2
  split
  · rename_i hc
    rcases hc with h | h
    · rcases h with h | h
      · exact Or.inl h
      · exact Or.inr (Or.inr (Or.inl h))
    · rcases h with h | h
      · exact Or.inr (Or.inl h)
      · exact Or.inr (Or.inr (Or.inr h))
  · exact Or.inr (Or.inr (Or.inl rfl))

/-- A filesystem-safe character is untouched by the first substitution.
Needs the real classification's disjointness facts: an alphanumeric
character is neither whitespace nor one of the nine specials, and `-`, `_`,
`.` are not whitespace. -/
theorem sub1_id_of_fsSafe (api : PyStrApi) (hw : api.WellFormed) (c : Char)
    (h : fsSafe api c) : sub1 api c = c := by
  obtain ⟨hal, hd, hu, hp, -, -⟩ := hw
  unfold sub1
  rw [if_neg]
  intro hc
  rcases hc with hc9 | hcs
  · rcases h with h | rfl | rfl | rfl
    · exact (hal c h).2 hc9
    · exact absurd hc9 (by decide)
    · exact absurd hc9 (by decide)
    · exact absurd hc9 (by decide)
  · rcases h with h | rfl | rfl | rfl
    · rw [(hal c h).1] at hcs
      exact Bool.noConfusion hcs
    · rw [hd] at hcs
      exact Bool.noConfusion hcs
    · rw [hu] at hcs
      exact Bool.noConfusion hcs
    · rw [hp] at hcs
      exact Bool.noConfusion hcs

theorem sub2_id_of_fsSafe (api : PyStrApi) (c : Char) (h : fsSafe api c) :
    sub2 api c = c := by
  unfold sub2
  rcases h with h | h | h | h
  · rw [if_pos (Or.inl (Or.inl h))]
  · rw [if_pos (Or.inr (Or.inl h))]
  · rw [if_pos (Or.inl (Or.inr h))]
  · rw [if_pos (Or.inr (Or.inr h))]

/-- Python's real `isalnum`, `\s` and `lower` satisfy `PyStrApi.WellFormed`;
here it is verified for the ASCII fragment the concrete examples run at. -/
theorem asciiApi_wellFormed : asciiApi.WellFormed := by
  refine ⟨fun c h => ⟨?_, ?_⟩, by decide, by decide, by decide, by decide, by decide⟩
  · have h' : asciiIsAlnum c = true := h
    cases hb : isPySpace c with
    | false => exact hb
    | true =>
        exfalso
        have hs' : c = ' ' ∨ c = '\t' ∨ c = '\n' ∨ c = '\x0d' ∨ c = '\x0b' ∨
            c = '\x0c' := by
          simpa [isPySpace] using hb
        rcases hs' with rfl | rfl | rfl | rfl | rfl | rfl <;>
          exact absurd h' (by decide)
  · have h' : asciiIsAlnum c = true := h
    intro hc
    rcases hc with rfl | rfl | rfl | rfl | rfl | rfl | rfl | rfl | rfl <;>
      exact absurd h' (by decide)

theorem mem_collapseU : ∀ l : List Char, ∀ c ∈ collapseU l, c ∈ l
  | [], c, hc => by simp [collapseU] at hc
  | [a], c, hc => by simpa [collapseU] using hc
  | a :: d :: rest, c, hc => by
      simp only [collapseU] at hc
      split at hc
      · exact List.mem_cons_of_mem a (mem_collapseU (d :: rest) c hc)
      · rcases List.mem_cons.mp hc with rfl | hc'
        · exact List.mem_cons_self c (d :: rest)
        · exact List.mem_cons_of_mem a (mem_collapseU (d :: rest) c hc')

/-- The relation "no two adjacent underscores". -/
def noDoubleU (a b : Char) : Prop := ¬(a = '_' ∧ b = '_')

/-- The squeeze never changes the first character of a non-empty list. -/
theorem head?_collapseU_cons : ∀ (d : Char) (rest : List Char),
    (collapseU (d :: rest)).head? = some d
  | _, [] => rfl
  | d, r :: rest => by
      simp only [collapseU]
      split
      · rename_i h
        rw [head?_collapseU_cons r rest, h.1, h.2]
      · simp

theorem chain'_collapseU : ∀ l : List Char, List.Chain' noDoubleU (collapseU l)
  | [] => by simp [collapseU]
  | [a] => by simp [collapseU]
  | a :: d :: rest => by
      have ih := chain'_collapseU (d :: rest)
      simp only [collapseU]
      split
      · exact ih
      · rename_i hud
        refine List.chain'_cons'.mpr ⟨fun y hy => ?_, ih⟩
        rw [head?_collapseU_cons d rest, Option.mem_def, Option.some_inj] at hy
        exact hy ▸ hud

theorem collapseU_eq_self : ∀ l : List Char, List.Chain' noDoubleU l → collapseU l = l
  | [], _ => rfl
  | [_], _ => rfl
  | a :: d :: rest, h => by
      simp only [collapseU]
      rw [if_neg (List.chain'_cons.mp h).1,
        collapseU_eq_self (d :: rest) (List.chain'_cons.mp h).2]

theorem head?_dropWhile_not {p : Char → Bool} :
    ∀ (l : List Char) (c : Char), (l.dropWhile p).head? = some c → ¬ p c
  | [], c, h => by simp at h
  | a :: t, c, h => by
      rw [List.dropWhile_cons] at h
      split at h
      · exact head?_dropWhile_not t c h
      · rename_i hpa
        simp only [List.head?_cons, Option.some_inj] at h
        exact h ▸ hpa

theorem head?_of_isPrefix {l₁ l : List Char} (h : l₁ <+: l) (c : Char)
    (hc : l₁.head? = some c) : l.head? = some c := by
  obtain ⟨t, rfl⟩ := h
  cases l₁ with
  | nil => simp at hc
  | cons a as => simpa using hc

/-! facts about `stripU` outputs -/

theorem mem_stripU (l : List Char) (c : Char) (h : c ∈ stripU l) : c ∈ l := by
  unfold stripU at h
  exact (List.dropWhile_suffix _).subset ((List.rdropWhile_prefix _ _).subset h)

theorem chain'_stripU (l : List Char) (h : List.Chain' noDoubleU l) :
    List.Chain' noDoubleU (stripU l) :=
  List.Chain'.prefix (List.Chain'.suffix h (List.dropWhile_suffix _))
    (List.rdropWhile_prefix _ _)

theorem head?_stripU (l : List Char) (c : Char) (h : (stripU l).head? = some c) :
    ¬(c = '_') := by
  unfold stripU at h
  have h' := head?_of_isPrefix (List.rdropWhile_prefix _ _) c h
  have := head?_dropWhile_not l c h'
  simpa using this

theorem getLast?_stripU (l : List Char) (c : Char)
    (h : (stripU l).getLast? = some c) : ¬(c = '_') := by
  unfold stripU at h
  have hne : (l.dropWhile fun c => c = '_').rdropWhile (fun c => c = '_') ≠ [] := by
    intro h0
    rw [h0] at h
    simp at h
  have hn := List.rdropWhile_last_not (fun c => c = '_')
    (l.dropWhile fun c => c = '_') hne
  rw [(List.getLast_eq_iff_getLast_eq_some hne).mpr h] at hn
  simpa using hn

/-! facts about whole `sanitizeCore` outputs -/

theorem fsSafe_sanitizeCore (api : PyStrApi) (name : List Char) :
    ∀ c ∈ sanitizeCore api name, fsSafe api c := by
  intro c hc
  simp only [sanitizeCore] at hc
  have hc' : c ∈ stripU (collapseU ((name.map (sub1 api)).map (sub2 api))) := by
    split at hc
    · exact (List.take_prefix _ _).subset hc
    · exact hc
  have hc2 := mem_stripU _ _ hc'
  have hc3 := mem_collapseU _ _ hc2
  obtain ⟨b, _, rfl⟩ := List.mem_map.mp hc3
  exact fsSafe_sub2 api b

theorem length_sanitizeCore (api : PyStrApi) (name : List Char) :
    (sanitizeCore api name).length ≤ 50 := by
  simp only [sanitizeCore]
  split
  · rw [List.length_take]
    omega
  · omega

theorem chain'_sanitizeCore (api : PyStrApi) (name : List Char) :
    List.Chain' noDoubleU (sanitizeCore api name) := by
  simp only [sanitizeCore]
  split
  · exact List.Chain'.prefix (chain'_stripU _ (chain'_collapseU _)) (List.take_prefix _ _)
  · exact chain'_stripU _ (chain'_collapseU _)

theorem head?_sanitizeCore (api : PyStrApi) (name : List Char) (c : Char)
    (h : (sanitizeCore api name).head? = some c) : ¬(c = '_') := by
  simp only [sanitizeCore] at h
  split at h
  · exact head?_stripU _ c (head?_of_isPrefix (List.take_prefix _ _) c h)
  · exact head?_stripU _ c h

theorem dropWhile_eq_self_of_head (l : List Char)
    (h : ∀ c, l.head? = some c → ¬(c = '_')) :
    l.dropWhile (fun c => c = '_') = l := by
  cases l with
  | nil => rfl
  | cons x xs =>
      rw [List.dropWhile_cons, if_neg (by simpa using h x rfl)]

/-! ## C9 — constrained alphabet, capped length, sentinel fallback -/

/-- C9.  For every word classification the sanitizer may run with — in
particular Python's real Unicode `str.isalnum` — every character of a
sanitized network label is alphanumeric under that classification, `-`, `_`
or `.`; its length never exceeds 50; the empty name collapses to the
sentinel `"unknown"`, a name whose substitution pipeline comes out empty
(unresolvable) collapses to it too, and the result is never the empty
string.  The last conjunct anchors the model at a concrete ASCII input,
where the ASCII fragment coincides with Python's functions. -/
theorem sanitize_filesystem_safe :
    (∀ api : PyStrApi, api.WellFormed →
      ∀ (name : List Char) (c : Char), c ∈ sanitize_network_name api name →
        fsSafe api c)
    ∧ (∀ (api : PyStrApi) (name : List Char),
        (sanitize_network_name api name).length ≤ 50)
    ∧ (∀ api : PyStrApi, sanitize_network_name api [] = "unknown".toList)
    ∧ (∀ (api : PyStrApi) (name : List Char), sanitize_network_name api name ≠ [])
    ∧ (∀ (api : PyStrApi) (name : List Char), sanitizeCore api name = [] →
        sanitize_network_name api name = "unknown".toList)
    ∧ sanitize_network_name asciiApi "My Wifi!".toList = "My_Wifi".toList := by
  refine ⟨fun api hw name c hc => ?_, fun api name => ?_, fun api => ?_,
    fun api name => ?_, fun api name h => ?_, by decide⟩
  · have hunk : ∀ c ∈ "unknown".toList, fsSafe api c := fun c hcm =>
      Or.inl (hw.2.2.2.2.1 c hcm)
    simp only [sanitize_network_name] at hc
    split at hc
    · exact hunk c hc
    · split at hc
      · exact hunk c hc
      · exact fsSafe_sanitizeCore api name c hc
  · simp only [sanitize_network_name]
    split
    · decide
    · split
      · decide
      · exact length_sanitizeCore api name
  · simp only [sanitize_network_name]
    rw [if_pos (Or.inl trivial)]
  · simp only [sanitize_network_name]
    split
    · decide
    · split
      · decide
      · rename_i hne
        exact hne
  · simp only [sanitize_network_name, h, if_pos]
    split <;> rfl

/-! ## C10 — sanitizing is not idempotent (truncation exposes underscores) -/

/-- C10 (counterexample).  The 50-character truncation runs after the
underscore strip, so it can leave a trailing underscore that a second
sanitization pass strips: on `'a' * 49 ++ "_b"` the first pass returns
`'a' * 49 ++ "_"` and the second pass returns `'a' * 49`.  The input is
ASCII-only, so evaluating at `asciiApi` reproduces the program's real
behaviour on it character for character. -/
theorem sanitize_not_idempotent_cex :
    sanitize_network_name asciiApi (sanitize_network_name asciiApi
        (List.replicate 49 'a' ++ ['_', 'b'])) ≠
      sanitize_network_name asciiApi (List.replicate 49 'a' ++ ['_', 'b']) := by decide

/-- C10 (amended).  With any well-formed word classification — Python's real
one included — re-sanitizing is the identity on every sanitized label that
does not end in an underscore (only the 50-character truncation can leave
one) and is not a case variant, under the classification's `lower`, of a
sentinel word other than `"unknown"` itself.  Partition-path resolution is
stable exactly for such labels; a label like `"unKnown"` written with the
Kelvin sign, which Python's `str.lower` collapses to `"unknown"`, violates
the second hypothesis and is indeed re-sanitized differently by the code. -/
theorem sanitize_idempotent_conditional (api : PyStrApi) (name : List Char)
    (hw : api.WellFormed)
    (h1 : (sanitize_network_name api name).getLast? ≠ some '_')
    (h2 : (api.lower (sanitize_network_name api name) = "unknown".toList ∨
            api.lower (sanitize_network_name api name) = "off/any".toList) →
          sanitize_network_name api name = "unknown".toList) :
    sanitize_network_name api (sanitize_network_name api name) =
      sanitize_network_name api name := by
  have hlow : api.lower "unknown".toList = "unknown".toList := hw.2.2.2.2.2
  have hunk_fix : sanitize_network_name api ("unknown".toList) = "unknown".toList := by
    unfold sanitize_network_name
    rw [if_pos (Or.inr (Or.inl hlow))]
  by_cases hb : name = [] ∨ api.lower name = "unknown".toList ∨
      api.lower name = "off/any".toList
  · have hr : sanitize_network_name api name = "unknown".toList := by
      unfold sanitize_network_name
      rw [if_pos hb]
    rw [hr, hunk_fix]
  · by_cases hs : sanitizeCore api name = []
    · have hr : sanitize_network_name api name = "unknown".toList := by
        unfold sanitize_network_name
        rw [if_neg hb]
        exact if_pos hs
      rw [hr, hunk_fix]
    · have hr : sanitize_network_name api name = sanitizeCore api name := by
        unfold sanitize_network_name
        rw [if_neg hb]
        exact if_neg hs
      rw [hr] at h1 h2 ⊢
      by_cases hb2 : sanitizeCore api name = [] ∨
          api.lower (sanitizeCore api name) = "unknown".toList ∨
          api.lower (sanitizeCore api name) = "off/any".toList
      · rcases hb2 with h0 | hsent
        · exact absurd h0 hs
        · have hru := h2 hsent
          rw [hru, hunk_fix]
      · have hfs := fsSafe_sanitizeCore api name
        have hchain := chain'_sanitizeCore api name
        have hlen := length_sanitizeCore api name
        have hm1 : (sanitizeCore api name).map (sub1 api) = sanitizeCore api name := by
          calc (sanitizeCore api name).map (sub1 api)
              = (sanitizeCore api name).map id :=
                List.map_congr_left fun a ha => sub1_id_of_fsSafe api hw a (hfs a ha)
            _ = sanitizeCore api name := List.map_id _
        have hm2 : (sanitizeCore api name).map (sub2 api) = sanitizeCore api name := by
          calc (sanitizeCore api name).map (sub2 api)
              = (sanitizeCore api name).map id :=
                List.map_congr_left fun a ha => sub2_id_of_fsSafe api a (hfs a ha)
            _ = sanitizeCore api name := List.map_id _
        have hstrip : stripU (sanitizeCore api name) = sanitizeCore api name := by
          unfold stripU
          rw [dropWhile_eq_self_of_head _ (head?_sanitizeCore api name)]
          rw [List.rdropWhile_eq_self_iff]
          intro hl hp
          exact h1 ((List.getLast_eq_iff_getLast_eq_some hl).mp
            (by simpa using hp))
        have hcore : sanitizeCore api (sanitizeCore api name) = sanitizeCore api name := by
          show (if 50 < (stripU (collapseU
                (((sanitizeCore api name).map (sub1 api)).map (sub2 api)))).length
            then (stripU (collapseU
                (((sanitizeCore api name).map (sub1 api)).map (sub2 api)))).take 50
            else stripU (collapseU
                (((sanitizeCore api name).map (sub1 api)).map (sub2 api)))) =
            sanitizeCore api name
          rw [hm1, hm2, collapseU_eq_self _ hchain, hstrip, if_neg (by omega)]
        unfold sanitize_network_name
        rw [if_neg hb2]
        show (if sanitizeCore api (sanitizeCore api name) = [] then "unknown".toList
          else sanitizeCore api (sanitizeCore api name)) = sanitizeCore api name
        rw [hcore, if_neg hs]

/-- C10 (witness).  A concrete ASCII input satisfying the amended theorem's
hypotheses at the ASCII fragment of the string API: sanitizing `"My Wifi!"`
gives `"My_Wifi"`, on which a second pass is the identity. -/
theorem sanitize_idempotent_conditional_witness :
    sanitize_network_name asciiApi (sanitize_network_name asciiApi "My Wifi!".toList) =
      sanitize_network_name asciiApi "My Wifi!".toList :=
  sanitize_idempotent_conditional asciiApi "My Wifi!".toList asciiApi_wellFormed
    (by decide) (by decide)

end NetMon
